import Mathlib

/-!
Verification of `src/common/helper/env.helper.ts` from the
nestjs-graphql-boilerplate repository.

The file embeds the two exported functions:

* `getEnvPath(dest)` — builds `resolve(dest + "/" + filename)` where
  `filename` is `.${NODE_ENV}.env` when `process.env.NODE_ENV` is truthy
  and `.development.env` otherwise.  Node's `path.resolve` is external
  library code, so it is taken as an arbitrary function parameter; the
  ambient `process.env.NODE_ENV` signal is an explicit
  `Option String` argument.

* `processEnvVars(config)` — copies the configuration object, replaces
  every two-character `\n` escape by a newline in the values of six JWT
  key names (when the value is a truthy string), then merges each
  lowercase variant into its canonical uppercase key (when the lowercase
  value is truthy), deleting the lowercase key.

JavaScript `unknown` values are modelled by the inductive type
`EnvValue` (strings, integers, booleans, null); an absent key is
`Option.none`.  A configuration object is modelled extensionally as a
function `String → Option EnvValue`.  JavaScript truthiness on these
values is `truthyV`.  Object mutation (for the frame claim) is modelled
by an explicit heap of objects, and exception behaviour (for the safety
claim) by an `Except`-level embedding where the one fallible operation,
the `.replace` method call, errors on a non-string receiver.
-/

/-- Model of a JavaScript runtime value stored in a configuration
mapping: a string, a number (modelled as an integer), a boolean, or
null.  An absent/undefined binding is represented by `Option.none`. -/
inductive EnvValue : Type where
  | vStr : String → EnvValue
  | vNum : Int → EnvValue
  | vBool : Bool → EnvValue
  | vNull : EnvValue
deriving DecidableEq, Repr

/-- JavaScript truthiness of a stored value: a string is truthy iff
nonempty, a number iff nonzero, a boolean iff `true`, null is falsy. -/
def truthyV : EnvValue → Bool
  | .vStr s => s != ""
  | .vNum n => n != 0
  | .vBool b => b
  | .vNull => false

/-- Truthiness of a possibly-absent value: an absent binding reads as
`undefined`, which is falsy. -/
def truthy : Option EnvValue → Bool
  | some v => truthyV v
  | none => false

/-- Whether a stored value is a string (the `typeof x === 'string'`
test of the source). -/
def isStrV : EnvValue → Bool
  | .vStr _ => true
  | _ => false

/-- A configuration mapping (`Record<string, unknown>` in the source),
modelled extensionally: each key is bound to a value or absent. -/
def EnvMap : Type := String → Option EnvValue

/-- Binding a key to a value (property assignment `m[k] = v`). -/
def setKey (m : EnvMap) (k : String) (v : EnvValue) : EnvMap :=
  fun q => if q = k then some v else m q

/-- Removing a key (`delete m[k]`). -/
def delKey (m : EnvMap) (k : String) : EnvMap :=
  fun q => if q = k then none else m q

/-- Character-level embedding of `String.prototype.replace(/\\n/g, '\n')`:
each two-character backslash-`n` occurrence becomes a newline character,
scanning left to right without overlap, as the global regex does. -/
def replaceNlAux : List Char → List Char
  | [] => []
  | [c] => [c]
  | c :: d :: rest =>
    if c = '\\' ∧ d = 'n' then '\n' :: replaceNlAux rest
    else c :: replaceNlAux (d :: rest)

/-- String-level wrapper of `replaceNlAux`: the embedding of
`s.replace(/\\n/g, '\n')`. -/
def replaceNl (s : String) : String :=
  ⟨replaceNlAux s.data⟩

/-- The action of the conversion pass on a single stored value:
newline-unescaping on strings, identity elsewhere. -/
def convVal : EnvValue → EnvValue
  | .vStr s => .vStr (replaceNl s)
  | v => v

/-- The fixed list `multilineVars` from the source: the six key names
whose string values get their `\n` escapes converted. -/
def multilineVars : List String :=
  ["JWT_PRIVATE_KEY", "JWT_PUBLIC_KEY", "JWT_REFRESH_TOKEN_PRIVATE_KEY",
   "jwt_private_key", "jwt_public_key", "jwt_refresh_token_private_key"]

/-- One iteration of the source's `forEach` body:
`if (processed[varName] && typeof processed[varName] === 'string')`
(i.e. the value is a nonempty string) rebind the key to the value with
`\n` escapes replaced. -/
def convStep (m : EnvMap) (k : String) : EnvMap :=
  match m k with
  | some (.vStr s) => if s != "" then setKey m k (.vStr (replaceNl s)) else m
  | _ => m

/-- The whole `multilineVars.forEach(...)` pass: the state of the
mapping after escape conversion, before any case merging. -/
def processMultiline (m : EnvMap) : EnvMap :=
  multilineVars.foldl convStep m

/-- One of the source's three case-merging blocks:
`if (processed[lower]) { processed[upper] = processed[lower]; delete processed[lower]; }`. -/
def mergeKey (m : EnvMap) (lower upper : String) : EnvMap :=
  match m lower with
  | some v => if truthyV v then delKey (setKey m upper v) lower else m
  | none => m

/-- The embedding of `processEnvVars`: escape conversion on the six
keys followed by the three lowercase-to-uppercase merges, in source
order. -/
def processEnvVars (m : EnvMap) : EnvMap :=
  mergeKey
    (mergeKey
      (mergeKey (processMultiline m) "jwt_private_key" "JWT_PRIVATE_KEY")
      "jwt_public_key" "JWT_PUBLIC_KEY")
    "jwt_refresh_token_private_key" "JWT_REFRESH_TOKEN_PRIVATE_KEY"

/-- The embedding of `getEnvPath`: `resolve` is Node's `path.resolve`,
external library code, taken as an arbitrary function; `nodeEnv` is the
ambient `process.env.NODE_ENV` signal (`none` when unset).  The file
name is `.${env}.env` when the signal is truthy (a nonempty string) and
`.development.env` otherwise. -/
def getEnvPath (resolve : String → String) (nodeEnv : Option String)
    (dest : String) : String :=
  let filename : String :=
    match nodeEnv with
    | some e => if e != "" then "." ++ e ++ ".env" else ".development.env"
    | none => ".development.env"
  resolve (dest ++ "/" ++ filename)

/-- Detector for a remaining backslash-`n` escape in a character list. -/
def hasEsc : List Char → Bool
  | [] => false
  | [_] => false
  | c :: d :: rest => (c = '\\' && d = 'n') || hasEsc (d :: rest)

/-- Normal form reached by the normalizer: every lowercase JWT key is
falsy (so no merge fires) and every string value under a targeted key
is a fixed point of the escape replacement. -/
def normalMap (m : EnvMap) : Prop :=
  truthy (m "jwt_private_key") = false ∧
  truthy (m "jwt_public_key") = false ∧
  truthy (m "jwt_refresh_token_private_key") = false ∧
  ∀ k ∈ multilineVars, ∀ s, m k = some (.vStr s) → replaceNl s = s

/-- A heap of configuration objects, for stating the no-mutation
property: a reference is an index, `processEnvVars` takes a reference,
allocates a copy (`{ ...config }`) and performs every write on the
copy. -/
abbrev Heap : Type := List EnvMap

/-- The object with no bindings. -/
def emptyObj : EnvMap := fun _ => none

/-- Dereferencing a heap reference. -/
def heapGet (h : Heap) (r : Nat) : EnvMap := (h[r]?).getD emptyObj

/-- In-place update of the object behind a reference, the model of a
statement that mutates `processed`. -/
def updRef (h : Heap) (r : Nat) (f : EnvMap → EnvMap) : Heap :=
  h.set r (f (heapGet h r))

/-- Heap-level embedding of `processEnvVars`: spread-copy the argument
object into a fresh reference, run the `forEach` conversions and the
three merge blocks as in-place writes on that fresh reference only, and
return it together with the final heap. -/
def processEnvVarsRef (h : Heap) (r : Nat) : Heap × Nat :=
  let r1 := h.length
  let h1 := h ++ [heapGet h r]
  let h2 := multilineVars.foldl
    (fun hh k => updRef hh r1 (fun m => convStep m k)) h1
  let h3 := updRef h2 r1
    (fun m => mergeKey m "jwt_private_key" "JWT_PRIVATE_KEY")
  let h4 := updRef h3 r1
    (fun m => mergeKey m "jwt_public_key" "JWT_PUBLIC_KEY")
  let h5 := updRef h4 r1
    (fun m => mergeKey m "jwt_refresh_token_private_key"
      "JWT_REFRESH_TOKEN_PRIVATE_KEY")
  (h5, r1)

/-- Whether a possibly-absent value is a string (`typeof x === 'string'`,
false on `undefined`). -/
def isStrO : Option EnvValue → Bool
  | some v => isStrV v
  | none => false

/-- The one fallible operation of the source, the method call
`value.replace(/\n/g, '\n')`: a TypeError unless the receiver is a
string. -/
def replaceCallE : Option EnvValue → Except String String
  | some (.vStr s) => .ok (replaceNl s)
  | _ => .error "TypeError: replace is not a function"

/-- Exception-level embedding of one `forEach` iteration: the guard
`processed[varName] && typeof processed[varName] === 'string'` decides
whether the fallible `.replace` call is reached. -/
def convStepE (m : EnvMap) (k : String) : Except String EnvMap :=
  if truthy (m k) && isStrO (m k) then do
    let s ← replaceCallE (m k)
    pure (setKey m k (.vStr s))
  else pure m

/-- Exception-level embedding of `processEnvVars`: property reads,
writes and deletes in the merge blocks cannot throw, so only the
conversion pass is run in the exception monad. -/
def processEnvVarsE (m : EnvMap) : Except String EnvMap := do
  let p ← multilineVars.foldlM convStepE m
  pure (mergeKey
    (mergeKey
      (mergeKey p "jwt_private_key" "JWT_PRIVATE_KEY")
      "jwt_public_key" "JWT_PUBLIC_KEY")
    "jwt_refresh_token_private_key" "JWT_REFRESH_TOKEN_PRIVATE_KEY")

/-- Exception-level embedding of `getEnvPath`: template-literal
concatenation is total and `resolve` is called on a string, so the body
reaches no fallible operation at all. -/
def getEnvPathE (resolve : String → String) (nodeEnv : Option String)
    (dest : String) : Except String String :=
  let filename : String :=
    match nodeEnv with
    | some e => if e != "" then "." ++ e ++ ".env" else ".development.env"
    | none => ".development.env"
  pure (resolve (dest ++ "/" ++ filename))

/-- Sample mapping binding only `JWT_PRIVATE_KEY` to the four-character
string `a\nb` (backslash-n between `a` and `b`). -/
def sampleJwtPrivate : EnvMap :=
  fun k => if k = "JWT_PRIVATE_KEY" then some (.vStr "a\\nb") else none

/-- Sample mapping binding only `jwt_public_key` to the empty string, a
falsy value. -/
def sampleLowerEmpty : EnvMap :=
  fun k => if k = "jwt_public_key" then some (.vStr "") else none

/-- Sample mapping binding only `jwt_public_key` to `x\ny`. -/
def sampleLowerPublic : EnvMap :=
  fun k => if k = "jwt_public_key" then some (.vStr "x\\ny") else none

/-- Sample mapping with no JWT keys at all. -/
def sampleNoJwt : EnvMap :=
  fun k => if k = "DB_HOST" then some (.vStr "localhost") else none

/-- Sample mapping binding a targeted key to a non-string value. -/
def sampleNumKey : EnvMap :=
  fun k => if k = "jwt_private_key" then some (.vNum 5) else none

/-- Sample mapping with a non-targeted key next to a targeted one. -/
def sampleMixed : EnvMap :=
  fun k =>
    if k = "PORT" then some (.vNum 3000)
    else if k = "jwt_private_key" then some (.vStr "p\\nq") else none

/-- Sample one-object heap. -/
def heapW : Heap := [sampleJwtPrivate]

section Lemmas

/-- Reading a key just written. -/
theorem setKey_same (m : EnvMap) (k : String) (v : EnvValue) :
    setKey m k v k = some v := by
  simp [setKey]

/-- Writing one key leaves the others alone. -/
theorem setKey_ne (m : EnvMap) (k q : String) (v : EnvValue) (h : q ≠ k) :
    setKey m k v q = m q := by
  simp [setKey, h]

/-- Deleting one key leaves the others alone. -/
theorem delKey_ne (m : EnvMap) (k q : String) (h : q ≠ k) :
    delKey m k q = m q := by
  simp [delKey, h]

/-- Rebinding a key to the value it already has is the identity. -/
theorem setKey_self (m : EnvMap) (k : String) (v : EnvValue)
    (h : m k = some v) : setKey m k v = m := by
  funext q
  by_cases hq : q = k
  · subst hq; simp [setKey, h]
  · simp [setKey, hq]

theorem hasEsc_cons_false (c : Char) (X : List Char)
    (hX : hasEsc X = false) (hh : ∀ xs, X = 'n' :: xs → c ≠ '\\') :
    hasEsc (c :: X) = false := by
  cases X with
  | nil => rfl
  | cons x xs =>
    simp [hasEsc] at hX ⊢
    refine ⟨fun hc => ?_, hX⟩
    by_contra hx
    exact hh xs (by rw [hx]) hc

theorem replaceNlAux_head (d : Char) (l : List Char) :
    (replaceNlAux (d :: l)).head? = some '\n' ∨
      (replaceNlAux (d :: l)).head? = some d := by
  cases l with
  | nil => right; rfl
  | cons e es =>
    rw [replaceNlAux]
    split
    · left; rfl
    · right; rfl

/-- The output of the escape replacement contains no remaining escape:
the replacement text (a newline) can never recombine with neighbouring
characters into a new backslash-`n` pair. -/
theorem hasEsc_replaceNlAux (l : List Char) : hasEsc (replaceNlAux l) = false := by
  induction l using replaceNlAux.induct with
  | case1 => rfl
  | case2 c => rfl
  | case3 c d rest h ih =>
    rw [replaceNlAux, if_pos h]
    exact hasEsc_cons_false _ _ ih (by intro xs hxs; simp)
  | case4 c d rest h ih =>
    rw [replaceNlAux, if_neg h]
    refine hasEsc_cons_false _ _ ih ?_
    intro xs hxs hc
    rcases replaceNlAux_head d rest with hd | hd <;> rw [hxs] at hd <;>
      simp at hd
    exact h ⟨hc, hd.symm⟩

/-- On escape-free input the replacement is the identity. -/
theorem replaceNlAux_of_not_hasEsc (l : List Char) (h : hasEsc l = false) :
    replaceNlAux l = l := by
  induction l using replaceNlAux.induct with
  | case1 => rfl
  | case2 c => rfl
  | case3 c d rest hcd ih =>
    exfalso
    simp [hasEsc, hcd.1, hcd.2] at h
  | case4 c d rest hcd ih =>
    rw [replaceNlAux, if_neg hcd]
    rw [ih (by simp [hasEsc] at h; exact h.2)]

theorem replaceNlAux_idem (l : List Char) :
    replaceNlAux (replaceNlAux l) = replaceNlAux l :=
  replaceNlAux_of_not_hasEsc _ (hasEsc_replaceNlAux l)

theorem replaceNlAux_eq_nil_iff (l : List Char) :
    replaceNlAux l = [] ↔ l = [] := by
  cases l with
  | nil => simp [replaceNlAux]
  | cons c l' =>
    cases l' with
    | nil => simp [replaceNlAux]
    | cons d rest =>
      rw [replaceNlAux]
      split <;> simp

/-- String-level idempotence of the escape replacement. -/
theorem replaceNl_idem (s : String) : replaceNl (replaceNl s) = replaceNl s :=
  congrArg String.mk (replaceNlAux_idem s.data)

/-- The escape replacement sends the empty string (and only it) to the
empty string. -/
theorem replaceNl_eq_empty_iff (s : String) : replaceNl s = "" ↔ s = "" := by
  obtain ⟨l⟩ := s
  constructor
  · intro h
    have hd : replaceNlAux l = [] := congrArg String.data h
    rw [(replaceNlAux_eq_nil_iff l).mp hd]
  · intro h
    rw [h]
    rfl

/-- The conversion step only touches its own key. -/
theorem convStep_ne (m : EnvMap) (k q : String) (h : q ≠ k) :
    convStep m k q = m q := by
  unfold convStep
  cases hv : m k with
  | none => rfl
  | some v =>
    cases v with
    | vStr s =>
      by_cases hs : s = ""
      · subst hs; simp
      · simp [hs, setKey_ne _ _ _ _ h]
    | vNum n => rfl
    | vBool b => rfl
    | vNull => rfl

/-- The conversion step maps its own key through `convVal`:
a nonempty string value is unescaped, an empty string is left as is
(and is its own unescaping), anything else is untouched. -/
theorem convStep_same (m : EnvMap) (k : String) :
    convStep m k k = (m k).map convVal := by
  unfold convStep
  cases hv : m k with
  | none => simp [hv]
  | some v =>
    cases v with
    | vStr s =>
      by_cases hs : s = ""
      · subst hs
        simp [hv, convVal, replaceNl, replaceNlAux]
      · simp [hs, setKey_same, hv, convVal]
    | vNum n => simp [hv, convVal]
    | vBool b => simp [hv, convVal]
    | vNull => simp [hv, convVal]

/-- The conversion pass leaves keys outside the folded list alone. -/
theorem foldl_convStep_not_mem (l : List String) (m : EnvMap) (k : String)
    (hk : k ∉ l) : l.foldl convStep m k = m k := by
  induction l generalizing m with
  | nil => rfl
  | cons a t ih =>
    rw [List.foldl_cons, ih _ (fun h => hk (List.mem_cons_of_mem a h)),
      convStep_ne _ _ _ (fun h => hk (by rw [h]; exact List.mem_cons_self a t))]

/-- The conversion pass maps each key of the folded (duplicate-free)
list through `convVal`. -/
theorem foldl_convStep_mem (l : List String) (m : EnvMap) (k : String)
    (hnd : l.Nodup) (hk : k ∈ l) :
    l.foldl convStep m k = (m k).map convVal := by
  induction l generalizing m with
  | nil => cases hk
  | cons a t ih =>
    rw [List.foldl_cons]
    rcases List.mem_cons.mp hk with hka | hkt
    · subst hka
      rw [foldl_convStep_not_mem _ _ _ (List.Nodup.not_mem hnd),
        convStep_same]
    · have hak : k ≠ a := by
        intro h
        exact List.Nodup.not_mem hnd (h ▸ hkt)
      rw [ih _ (List.Nodup.of_cons hnd) hkt, convStep_ne _ _ _ hak]

/-- The escape-conversion pass acts as `convVal` on each of the six
targeted keys. -/
theorem processMultiline_mem (m : EnvMap) (k : String)
    (hk : k ∈ multilineVars) :
    processMultiline m k = (m k).map convVal :=
  foldl_convStep_mem _ _ _ (by decide) hk

/-- The escape-conversion pass leaves every other key alone. -/
theorem processMultiline_ne (m : EnvMap) (k : String)
    (hk : k ∉ multilineVars) : processMultiline m k = m k :=
  foldl_convStep_not_mem _ _ _ hk

/-- Deleting a key removes its binding. -/
theorem delKey_same (m : EnvMap) (k : String) : delKey m k k = none := by
  simp [delKey]

/-- A merge block touches only its two keys. -/
theorem mergeKey_ne (m : EnvMap) (lower upper q : String)
    (h1 : q ≠ lower) (h2 : q ≠ upper) : mergeKey m lower upper q = m q := by
  unfold mergeKey
  cases hv : m lower with
  | none => rfl
  | some v =>
    by_cases ht : truthyV v
    · simp [ht, delKey_ne _ _ _ h1, setKey_ne _ _ _ _ h2]
    · simp [ht]

/-- A merge block deletes its lowercase key exactly when that key's
value is truthy. -/
theorem mergeKey_at_lower (m : EnvMap) (lower upper : String)
    (_h : lower ≠ upper) :
    mergeKey m lower upper lower =
      if truthy (m lower) then none else m lower := by
  unfold mergeKey
  cases hv : m lower with
  | none => simp [truthy, hv]
  | some v =>
    by_cases ht : truthyV v
    · simp [ht, truthy, delKey_same]
    · simp [ht, truthy, hv]

/-- A merge block overwrites its uppercase key with the lowercase value
exactly when that value is truthy. -/
theorem mergeKey_at_upper (m : EnvMap) (lower upper : String)
    (h : upper ≠ lower) :
    mergeKey m lower upper upper =
      if truthy (m lower) then m lower else m upper := by
  unfold mergeKey
  cases hv : m lower with
  | none => simp [truthy]
  | some v =>
    by_cases ht : truthyV v
    · simp [ht, truthy, delKey_ne _ _ _ h, setKey_same]
    · simp [ht, truthy]

/-- A merge block whose lowercase value is falsy is the identity. -/
theorem mergeKey_of_falsy (m : EnvMap) (lower upper : String)
    (h : truthy (m lower) = false) : mergeKey m lower upper = m := by
  unfold mergeKey
  cases hv : m lower with
  | none => rfl
  | some v =>
    rw [hv, truthy] at h
    simp [h]

/-- Value of the normalizer output at `jwt_private_key`. -/
theorem processEnvVars_at_lower1 (m : EnvMap) :
    processEnvVars m "jwt_private_key" =
      if truthy (processMultiline m "jwt_private_key") then none
      else processMultiline m "jwt_private_key" := by
  unfold processEnvVars
  rw [mergeKey_ne _ "jwt_refresh_token_private_key"
      "JWT_REFRESH_TOKEN_PRIVATE_KEY" "jwt_private_key" (by decide) (by decide),
    mergeKey_ne _ "jwt_public_key" "JWT_PUBLIC_KEY" "jwt_private_key"
      (by decide) (by decide),
    mergeKey_at_lower _ _ _ (by decide)]

/-- Value of the normalizer output at `jwt_public_key`. -/
theorem processEnvVars_at_lower2 (m : EnvMap) :
    processEnvVars m "jwt_public_key" =
      if truthy (processMultiline m "jwt_public_key") then none
      else processMultiline m "jwt_public_key" := by
  unfold processEnvVars
  rw [mergeKey_ne _ "jwt_refresh_token_private_key"
      "JWT_REFRESH_TOKEN_PRIVATE_KEY" "jwt_public_key" (by decide) (by decide),
    mergeKey_at_lower _ _ _ (by decide),
    mergeKey_ne _ "jwt_private_key" "JWT_PRIVATE_KEY" "jwt_public_key"
      (by decide) (by decide)]

/-- Value of the normalizer output at `jwt_refresh_token_private_key`. -/
theorem processEnvVars_at_lower3 (m : EnvMap) :
    processEnvVars m "jwt_refresh_token_private_key" =
      if truthy (processMultiline m "jwt_refresh_token_private_key") then none
      else processMultiline m "jwt_refresh_token_private_key" := by
  unfold processEnvVars
  rw [mergeKey_at_lower _ _ _ (by decide),
    mergeKey_ne _ "jwt_public_key" "JWT_PUBLIC_KEY"
      "jwt_refresh_token_private_key" (by decide) (by decide),
    mergeKey_ne _ "jwt_private_key" "JWT_PRIVATE_KEY"
      "jwt_refresh_token_private_key" (by decide) (by decide)]

/-- Value of the normalizer output at `JWT_PRIVATE_KEY`. -/
theorem processEnvVars_at_upper1 (m : EnvMap) :
    processEnvVars m "JWT_PRIVATE_KEY" =
      if truthy (processMultiline m "jwt_private_key")
      then processMultiline m "jwt_private_key"
      else processMultiline m "JWT_PRIVATE_KEY" := by
  unfold processEnvVars
  rw [mergeKey_ne _ "jwt_refresh_token_private_key"
      "JWT_REFRESH_TOKEN_PRIVATE_KEY" "JWT_PRIVATE_KEY" (by decide) (by decide),
    mergeKey_ne _ "jwt_public_key" "JWT_PUBLIC_KEY" "JWT_PRIVATE_KEY"
      (by decide) (by decide),
    mergeKey_at_upper _ _ _ (by decide)]

/-- Value of the normalizer output at `JWT_PUBLIC_KEY`. -/
theorem processEnvVars_at_upper2 (m : EnvMap) :
    processEnvVars m "JWT_PUBLIC_KEY" =
      if truthy (processMultiline m "jwt_public_key")
      then processMultiline m "jwt_public_key"
      else processMultiline m "JWT_PUBLIC_KEY" := by
  unfold processEnvVars
  rw [mergeKey_ne _ "jwt_refresh_token_private_key"
      "JWT_REFRESH_TOKEN_PRIVATE_KEY" "JWT_PUBLIC_KEY" (by decide) (by decide),
    mergeKey_at_upper _ _ _ (by decide),
    mergeKey_ne _ "jwt_private_key" "JWT_PRIVATE_KEY" "jwt_public_key"
      (by decide) (by decide),
    mergeKey_ne _ "jwt_private_key" "JWT_PRIVATE_KEY" "JWT_PUBLIC_KEY"
      (by decide) (by decide)]

/-- Value of the normalizer output at `JWT_REFRESH_TOKEN_PRIVATE_KEY`. -/
theorem processEnvVars_at_upper3 (m : EnvMap) :
    processEnvVars m "JWT_REFRESH_TOKEN_PRIVATE_KEY" =
      if truthy (processMultiline m "jwt_refresh_token_private_key")
      then processMultiline m "jwt_refresh_token_private_key"
      else processMultiline m "JWT_REFRESH_TOKEN_PRIVATE_KEY" := by
  unfold processEnvVars
  rw [mergeKey_at_upper _ _ _ (by decide),
    mergeKey_ne _ "jwt_public_key" "JWT_PUBLIC_KEY"
      "jwt_refresh_token_private_key" (by decide) (by decide),
    mergeKey_ne _ "jwt_private_key" "JWT_PRIVATE_KEY"
      "jwt_refresh_token_private_key" (by decide) (by decide),
    mergeKey_ne _ "jwt_public_key" "JWT_PUBLIC_KEY"
      "JWT_REFRESH_TOKEN_PRIVATE_KEY" (by decide) (by decide),
    mergeKey_ne _ "jwt_private_key" "JWT_PRIVATE_KEY"
      "JWT_REFRESH_TOKEN_PRIVATE_KEY" (by decide) (by decide)]

/-- String values of the conversion pass's output under targeted keys
are fixed points of the escape replacement. -/
theorem processMultiline_fixed (m : EnvMap) (k : String)
    (hk : k ∈ multilineVars) (s : String)
    (h : processMultiline m k = some (.vStr s)) : replaceNl s = s := by
  rw [processMultiline_mem m k hk] at h
  cases hv : m k with
  | none => rw [hv] at h; cases h
  | some v =>
    rw [hv] at h
    cases v with
    | vStr t =>
      simp [convVal] at h
      rw [← h]
      exact replaceNl_idem t
    | vNum n => simp [convVal] at h
    | vBool b => simp [convVal] at h
    | vNull => simp [convVal] at h

/-- The normalizer's output is always in normal form. -/
theorem normal_processEnvVars (m : EnvMap) : normalMap (processEnvVars m) := by
  refine ⟨?_, ?_, ?_, ?_⟩
  · rw [processEnvVars_at_lower1]
    by_cases hc : truthy (processMultiline m "jwt_private_key") = true
    · rw [if_pos hc]
      rfl
    · simp only [Bool.not_eq_true] at hc
      rw [if_neg (by simp [hc])]
      exact hc
  · rw [processEnvVars_at_lower2]
    by_cases hc : truthy (processMultiline m "jwt_public_key") = true
    · rw [if_pos hc]
      rfl
    · simp only [Bool.not_eq_true] at hc
      rw [if_neg (by simp [hc])]
      exact hc
  · rw [processEnvVars_at_lower3]
    by_cases hc : truthy (processMultiline m "jwt_refresh_token_private_key") = true
    · rw [if_pos hc]
      rfl
    · simp only [Bool.not_eq_true] at hc
      rw [if_neg (by simp [hc])]
      exact hc
  · intro k hk s hks
    fin_cases hk
    · rw [processEnvVars_at_upper1] at hks
      split at hks
      · exact processMultiline_fixed m "jwt_private_key" (by decide) s hks
      · exact processMultiline_fixed m "JWT_PRIVATE_KEY" (by decide) s hks
    · rw [processEnvVars_at_upper2] at hks
      split at hks
      · exact processMultiline_fixed m "jwt_public_key" (by decide) s hks
      · exact processMultiline_fixed m "JWT_PUBLIC_KEY" (by decide) s hks
    · rw [processEnvVars_at_upper3] at hks
      split at hks
      · exact processMultiline_fixed m "jwt_refresh_token_private_key" (by decide) s hks
      · exact processMultiline_fixed m "JWT_REFRESH_TOKEN_PRIVATE_KEY" (by decide) s hks
    · rw [processEnvVars_at_lower1] at hks
      split at hks
      · cases hks
      · exact processMultiline_fixed m "jwt_private_key" (by decide) s hks
    · rw [processEnvVars_at_lower2] at hks
      split at hks
      · cases hks
      · exact processMultiline_fixed m "jwt_public_key" (by decide) s hks
    · rw [processEnvVars_at_lower3] at hks
      split at hks
      · cases hks
      · exact processMultiline_fixed m "jwt_refresh_token_private_key" (by decide) s hks

/-- A conversion step whose key holds a replacement-fixed (or absent,
or non-string) value is the identity. -/
theorem convStep_fixed (m : EnvMap) (k : String)
    (hf : ∀ s, m k = some (.vStr s) → replaceNl s = s) :
    convStep m k = m := by
  unfold convStep
  cases hv : m k with
  | none => rfl
  | some v =>
    cases v with
    | vStr s =>
      by_cases hs : s = ""
      · simp [hs]
      · show (if (s != "") = true
            then setKey m k (.vStr (replaceNl s)) else m) = m
        rw [hf s hv, if_pos (by simp [hs])]
        exact setKey_self m k _ hv
    | vNum n => rfl
    | vBool b => rfl
    | vNull => rfl

/-- The normalizer is the identity on maps in normal form. -/
theorem processEnvVars_of_normal (m : EnvMap) (h : normalMap m) :
    processEnvVars m = m := by
  obtain ⟨h1, h2, h3, hfix⟩ := h
  have hS : processMultiline m = m := by
    simp only [processMultiline, multilineVars, List.foldl_cons, List.foldl_nil]
    rw [convStep_fixed m "JWT_PRIVATE_KEY" (hfix _ (by decide)),
      convStep_fixed m "JWT_PUBLIC_KEY" (hfix _ (by decide)),
      convStep_fixed m "JWT_REFRESH_TOKEN_PRIVATE_KEY" (hfix _ (by decide)),
      convStep_fixed m "jwt_private_key" (hfix _ (by decide)),
      convStep_fixed m "jwt_public_key" (hfix _ (by decide)),
      convStep_fixed m "jwt_refresh_token_private_key" (hfix _ (by decide))]
  unfold processEnvVars
  rw [hS, mergeKey_of_falsy m _ _ h1, mergeKey_of_falsy m _ _ h2,
    mergeKey_of_falsy m _ _ h3]

/-- In-place update keeps the heap size. -/
theorem updRef_length (h : Heap) (r : Nat) (f : EnvMap → EnvMap) :
    (updRef h r f).length = h.length := by
  simp [updRef]

/-- In-place update of one reference leaves the others alone. -/
theorem updRef_getElem_ne (h : Heap) (r q : Nat) (f : EnvMap → EnvMap)
    (hne : q ≠ r) : (updRef h r f)[q]? = h[q]? := by
  simp [updRef, List.getElem?_set_ne (Ne.symm hne)]

/-- Reading back the reference just updated. -/
theorem updRef_heapGet (h : Heap) (r : Nat) (f : EnvMap → EnvMap)
    (hr : r < h.length) : heapGet (updRef h r f) r = f (heapGet h r) := by
  simp [updRef, heapGet, List.getElem?_set_self, hr]

/-- The conversion `forEach` keeps the heap size. -/
theorem foldlRef_length (l : List String) (hh : Heap) (r1 : Nat) :
    (l.foldl (fun hh k => updRef hh r1 (fun m => convStep m k)) hh).length =
      hh.length := by
  induction l generalizing hh with
  | nil => rfl
  | cons a t ih => rw [List.foldl_cons, ih, updRef_length]

/-- The conversion `forEach` writes only its own reference. -/
theorem foldlRef_getElem_ne (l : List String) (hh : Heap) (r1 q : Nat)
    (hne : q ≠ r1) :
    (l.foldl (fun hh k => updRef hh r1 (fun m => convStep m k)) hh)[q]? =
      hh[q]? := by
  induction l generalizing hh with
  | nil => rfl
  | cons a t ih => rw [List.foldl_cons, ih, updRef_getElem_ne _ _ _ _ hne]

/-- The in-place conversion `forEach` computes the pure conversion fold
on the object behind its reference. -/
theorem foldlRef_heapGet (l : List String) (hh : Heap) (r1 : Nat)
    (hr : r1 < hh.length) :
    heapGet (l.foldl (fun hh k => updRef hh r1 (fun m => convStep m k)) hh) r1 =
      l.foldl convStep (heapGet hh r1) := by
  induction l generalizing hh with
  | nil => rfl
  | cons a t ih =>
    rw [List.foldl_cons, List.foldl_cons,
      ih _ (by rw [updRef_length]; exact hr), updRef_heapGet _ _ _ hr]

/-- The guarded exception-level conversion step never errors, and it
computes the pure conversion step. -/
theorem convStepE_ok (m : EnvMap) (k : String) :
    convStepE m k = Except.ok (convStep m k) := by
  unfold convStepE convStep
  cases hv : m k with
  | none => rfl
  | some v =>
    cases v with
    | vStr s =>
      by_cases hs : s = ""
      · subst hs; rfl
      · rw [if_pos (by simp [truthy, truthyV, isStrO, isStrV, hs])]
        simp [replaceCallE, hs]
    | vNum n =>
      rw [if_neg (by simp [isStrO, isStrV])]
      rfl
    | vBool b =>
      rw [if_neg (by simp [isStrO, isStrV])]
      rfl
    | vNull => rfl

/-- The exception-level conversion pass never errors, and it computes
the pure conversion pass. -/
theorem foldlME (l : List String) (m : EnvMap) :
    l.foldlM convStepE m = Except.ok (l.foldl convStep m) := by
  induction l generalizing m with
  | nil => rfl
  | cons a t ih =>
    rw [List.foldlM_cons, convStepE_ok]
    exact ih (convStep m a)

/-- The conversion of a value preserves its truthiness: unescaping a
nonempty string cannot empty it. -/
theorem truthyV_convVal (v : EnvValue) : truthyV (convVal v) = truthyV v := by
  cases v with
  | vStr s =>
    by_cases hs : s = ""
    · subst hs; rfl
    · have hns : replaceNl s ≠ "" := fun hc => hs ((replaceNl_eq_empty_iff s).mp hc)
      have h1 : (replaceNl s != "") = true := bne_iff_ne.mpr hns
      have h2 : (s != "") = true := bne_iff_ne.mpr hs
      simp only [convVal, truthyV]
      rw [h1, h2]
  | vNum n => rfl
  | vBool b => rfl
  | vNull => rfl

end Lemmas

/-- C1: for every configuration mapping and each key of the fixed
six-name set whose value is a string, the conversion pass (the
normalizer state before any case merging) binds that key to the value
with every two-character backslash-n sequence replaced by a newline
character.  An empty string is untouched by the source's truthiness
guard, but it equals its own replacement, so the equation holds for
every string value. -/
theorem claim_c1_newline_conversion (m : EnvMap) (k s : String)
    (hk : k ∈ multilineVars) (hv : m k = some (.vStr s)) :
    processMultiline m k = some (.vStr (replaceNl s)) := by
  rw [processMultiline_mem m k hk, hv]
  rfl

/-- Witness for C1: the input with `JWT_PRIVATE_KEY` bound to `a\nb`
(backslash-n between `a` and `b`) yields `JWT_PRIVATE_KEY` bound to
`a`-newline-`b`. -/
theorem claim_c1_newline_conversion_witness :
    processMultiline sampleJwtPrivate "JWT_PRIVATE_KEY" =
      some (.vStr "a\nb") := by
  have h := claim_c1_newline_conversion sampleJwtPrivate "JWT_PRIVATE_KEY"
    "a\\nb" (by decide) (by decide)
  rw [h]
  decide

/-- Counterexample to C2: in the mapping binding `jwt_public_key` to
the empty string (present, a string, but falsy), no merge fires: the
output still contains `jwt_public_key` and leaves `JWT_PUBLIC_KEY`
absent, contradicting the claim for a mapping in which a lowercase
variant key is present. -/
theorem claim_c2_counterexample :
    ¬ (processEnvVars sampleLowerEmpty "JWT_PUBLIC_KEY" =
          some (.vStr (replaceNl "")) ∧
        processEnvVars sampleLowerEmpty "jwt_public_key" = none) := by
  decide

/-- C2 (amended): for every configuration mapping in which a lowercase
variant key is present with a truthy value (in particular any nonempty
string), the output binds the corresponding canonical uppercase key to
that value (newline-converted when it is a string) and does not contain
the lowercase key, even when the canonical key was also present. -/
theorem claim_c2_lowercase_merge (m : EnvMap) (lower upper : String)
    (hp : (lower, upper) ∈ [("jwt_private_key", "JWT_PRIVATE_KEY"),
      ("jwt_public_key", "JWT_PUBLIC_KEY"),
      ("jwt_refresh_token_private_key", "JWT_REFRESH_TOKEN_PRIVATE_KEY")])
    (v : EnvValue) (hv : m lower = some v) (ht : truthyV v = true) :
    processEnvVars m upper = some (convVal v) ∧
      processEnvVars m lower = none := by
  fin_cases hp
  · have hS : processMultiline m "jwt_private_key" = some (convVal v) := by
      rw [processMultiline_mem m _ (by decide), hv]; rfl
    have hT : truthy (processMultiline m "jwt_private_key") = true := by
      rw [hS]
      show truthyV (convVal v) = true
      rw [truthyV_convVal, ht]
    exact ⟨by rw [processEnvVars_at_upper1, if_pos hT, hS],
      by rw [processEnvVars_at_lower1, if_pos hT]⟩
  · have hS : processMultiline m "jwt_public_key" = some (convVal v) := by
      rw [processMultiline_mem m _ (by decide), hv]; rfl
    have hT : truthy (processMultiline m "jwt_public_key") = true := by
      rw [hS]
      show truthyV (convVal v) = true
      rw [truthyV_convVal, ht]
    exact ⟨by rw [processEnvVars_at_upper2, if_pos hT, hS],
      by rw [processEnvVars_at_lower2, if_pos hT]⟩
  · have hS : processMultiline m "jwt_refresh_token_private_key" =
        some (convVal v) := by
      rw [processMultiline_mem m _ (by decide), hv]; rfl
    have hT : truthy (processMultiline m "jwt_refresh_token_private_key")
        = true := by
      rw [hS]
      show truthyV (convVal v) = true
      rw [truthyV_convVal, ht]
    exact ⟨by rw [processEnvVars_at_upper3, if_pos hT, hS],
      by rw [processEnvVars_at_lower3, if_pos hT]⟩

/-- Witness for the amended C2: a mapping containing only
`jwt_public_key` bound to `x\ny` yields `JWT_PUBLIC_KEY` bound to
`x`-newline-`y` and no `jwt_public_key` key. -/
theorem claim_c2_lowercase_merge_witness :
    processEnvVars sampleLowerPublic "JWT_PUBLIC_KEY" =
        some (.vStr "x\ny") ∧
      processEnvVars sampleLowerPublic "jwt_public_key" = none := by
  have h := claim_c2_lowercase_merge sampleLowerPublic "jwt_public_key"
    "JWT_PUBLIC_KEY" (by decide) (.vStr "x\\ny") (by decide) (by decide)
  refine ⟨?_, h.2⟩
  rw [h.1]
  decide

/-- C3: for every base directory `d`, every `resolve` function and
every mode signal in the set absent / production / test, the resolver
returns `resolve (d ++ "/." ++ (mode or "development") ++ ".env")`;
with no mode signal the file name component is `.development.env`. -/
theorem claim_c3_path_formula (resolve : String → String) (d : String)
    (mode : Option String)
    (hm : mode = none ∨ mode = some "production" ∨ mode = some "test") :
    getEnvPath resolve mode d =
      resolve (d ++ "/." ++ mode.getD "development" ++ ".env") := by
  rcases hm with rfl | rfl | rfl <;>
    · refine congrArg resolve ?_
      simp only [String.append_assoc]
      exact congrArg (fun t => d ++ t) (by decide)

/-- Witness for C3 at `resolve = id`, `d = "/app"`,
`mode = "production"`. -/
theorem claim_c3_path_formula_witness :
    getEnvPath id (some "production") "/app" = "/app/.production.env" := by
  have h := claim_c3_path_formula id "/app" (some "production")
    (Or.inr (Or.inl rfl))
  rw [h]
  decide

/-- C4: the normalizer is idempotent — applying it to its own output
yields the same mapping. -/
theorem claim_c4_idempotent (m : EnvMap) :
    processEnvVars (processEnvVars m) = processEnvVars m :=
  processEnvVars_of_normal _ (normal_processEnvVars m)

/-- C10: a present-but-empty `NODE_ENV` is falsy, so the resolver
treats it exactly as an absent signal and the path ends in
`.development.env`. -/
theorem claim_c10_empty_mode (resolve : String → String) (d : String) :
    getEnvPath resolve (some "") d = getEnvPath resolve none d ∧
      getEnvPath resolve none d = resolve (d ++ "/" ++ ".development.env") :=
  ⟨rfl, rfl⟩

/-- Unfolded shape of the heap-level normalizer. -/
theorem processEnvVarsRef_eq (h : Heap) (r : Nat) :
    processEnvVarsRef h r =
      (updRef (updRef (updRef
        (multilineVars.foldl
          (fun hh k => updRef hh h.length (fun m => convStep m k))
          (h ++ [heapGet h r]))
        h.length (fun m => mergeKey m "jwt_private_key" "JWT_PRIVATE_KEY"))
        h.length (fun m => mergeKey m "jwt_public_key" "JWT_PUBLIC_KEY"))
        h.length (fun m => mergeKey m "jwt_refresh_token_private_key"
          "JWT_REFRESH_TOKEN_PRIVATE_KEY"),
       h.length) := rfl

/-- C5: the heap-level normalizer does not mutate its argument object —
the object behind the input reference is unchanged — and it returns a
fresh reference, holding exactly the pure normalizer's result. -/
theorem claim_c5_no_mutation (h : Heap) (r : Nat) (hr : r < h.length) :
    (processEnvVarsRef h r).1[r]? = h[r]? ∧
      (processEnvVarsRef h r).2 ≠ r ∧
      heapGet (processEnvVarsRef h r).1 (processEnvVarsRef h r).2 =
        processEnvVars (heapGet h r) := by
  have hrne : r ≠ h.length := Nat.ne_of_lt hr
  rw [processEnvVarsRef_eq]
  refine ⟨?_, ?_, ?_⟩
  · dsimp only
    rw [updRef_getElem_ne _ _ _ _ hrne, updRef_getElem_ne _ _ _ _ hrne,
      updRef_getElem_ne _ _ _ _ hrne, foldlRef_getElem_ne _ _ _ _ hrne,
      List.getElem?_append]
    simp [hr]
  · dsimp only
    exact fun hc => hrne hc.symm
  · dsimp only
    have hbase : heapGet (h ++ [heapGet h r]) h.length = heapGet h r := by
      simp [heapGet, List.getElem?_concat_length]
    rw [updRef_heapGet _ _ _
        (by rw [updRef_length, updRef_length, foldlRef_length]; simp),
      updRef_heapGet _ _ _ (by rw [updRef_length, foldlRef_length]; simp),
      updRef_heapGet _ _ _ (by rw [foldlRef_length]; simp),
      foldlRef_heapGet _ _ _ (by simp), hbase]
    rfl

/-- Witness for C5 on a one-object heap. -/
theorem claim_c5_no_mutation_witness :
    (processEnvVarsRef heapW 0).1[0]? = heapW[0]? ∧
      (processEnvVarsRef heapW 0).2 ≠ 0 ∧
      heapGet (processEnvVarsRef heapW 0).1 (processEnvVarsRef heapW 0).2 =
        processEnvVars (heapGet heapW 0) :=
  claim_c5_no_mutation heapW 0 (by decide)

/-- C6: on a mapping containing none of the six targeted JWT keys the
normalizer is the identity. -/
theorem claim_c6_identity (m : EnvMap)
    (h1 : m "JWT_PRIVATE_KEY" = none) (h2 : m "JWT_PUBLIC_KEY" = none)
    (h3 : m "JWT_REFRESH_TOKEN_PRIVATE_KEY" = none)
    (h4 : m "jwt_private_key" = none) (h5 : m "jwt_public_key" = none)
    (h6 : m "jwt_refresh_token_private_key" = none) :
    processEnvVars m = m := by
  refine processEnvVars_of_normal m ⟨?_, ?_, ?_, ?_⟩
  · rw [h4]; rfl
  · rw [h5]; rfl
  · rw [h6]; rfl
  · intro k hk s hks
    fin_cases hk
    · rw [h1] at hks; cases hks
    · rw [h2] at hks; cases hks
    · rw [h3] at hks; cases hks
    · rw [h4] at hks; cases hks
    · rw [h5] at hks; cases hks
    · rw [h6] at hks; cases hks

/-- Witness for C6 on a mapping holding only `DB_HOST`. -/
theorem claim_c6_identity_witness : processEnvVars sampleNoJwt = sampleNoJwt :=
  claim_c6_identity sampleNoJwt (by decide) (by decide) (by decide)
    (by decide) (by decide) (by decide)

/-- C7: the conversion pass (the replacement step, lines 28-32 of the
source) leaves a present non-string value of a targeted key unmodified
and is a no-op on an absent targeted key. -/
theorem claim_c7_non_string_noop (m : EnvMap) (k : String)
    (hk : k ∈ multilineVars) (hns : ∀ s, m k ≠ some (.vStr s)) :
    processMultiline m k = m k := by
  rw [processMultiline_mem m k hk]
  cases hv : m k with
  | none => rfl
  | some v =>
    cases v with
    | vStr s => exact absurd hv (hns s)
    | vNum n => rfl
    | vBool b => rfl
    | vNull => rfl

/-- Witness for C7: a numeric `jwt_private_key` passes through the
conversion step unmodified. -/
theorem claim_c7_non_string_noop_witness :
    processMultiline sampleNumKey "jwt_private_key" = some (.vNum 5) := by
  have h := claim_c7_non_string_noop sampleNumKey "jwt_private_key"
    (by decide) (fun s hs => by simp [sampleNumKey] at hs)
  rw [h]
  decide

/-- C8: every key outside the fixed six-name set passes through the
normalizer unchanged. -/
theorem claim_c8_pass_through (m : EnvMap) (k : String)
    (hk : k ∉ multilineVars) : processEnvVars m k = m k := by
  have n1 : k ≠ "jwt_private_key" := fun hc => hk (by rw [hc]; decide)
  have n2 : k ≠ "JWT_PRIVATE_KEY" := fun hc => hk (by rw [hc]; decide)
  have n3 : k ≠ "jwt_public_key" := fun hc => hk (by rw [hc]; decide)
  have n4 : k ≠ "JWT_PUBLIC_KEY" := fun hc => hk (by rw [hc]; decide)
  have n5 : k ≠ "jwt_refresh_token_private_key" :=
    fun hc => hk (by rw [hc]; decide)
  have n6 : k ≠ "JWT_REFRESH_TOKEN_PRIVATE_KEY" :=
    fun hc => hk (by rw [hc]; decide)
  unfold processEnvVars
  rw [mergeKey_ne _ _ _ _ n5 n6, mergeKey_ne _ _ _ _ n3 n4,
    mergeKey_ne _ _ _ _ n1 n2, processMultiline_ne m k hk]

/-- Witness for C8: `PORT` is untouched even next to a targeted key. -/
theorem claim_c8_pass_through_witness :
    processEnvVars sampleMixed "PORT" = some (.vNum 3000) := by
  have h := claim_c8_pass_through sampleMixed "PORT" (by decide)
  rw [h]
  decide

/-- C9: neither operation signals a fault on any input: at the
exception-level embedding, where the `.replace` method call is the one
fallible operation, the normalizer always returns `ok` of the pure
result (the `typeof` guard protects the call), and the path resolver's
body reaches no fallible operation at all. -/
theorem claim_c9_no_errors :
    (∀ m : EnvMap, processEnvVarsE m = Except.ok (processEnvVars m)) ∧
      (∀ (resolve : String → String) (nodeEnv : Option String)
        (dest : String),
        getEnvPathE resolve nodeEnv dest =
          Except.ok (getEnvPath resolve nodeEnv dest)) := by
  constructor
  · intro m
    unfold processEnvVarsE
    rw [foldlME]
    rfl
  · intro resolve nodeEnv dest
    rfl
